import Mathlib

/-!
Verification development for the Perplexica copilot performance layer.

Shallow embedding of the performance infrastructure and search
orchestration of the repository:

* `src/lib/performance/parallelProcessor.ts`  (ParallelProcessor)
* `src/lib/performance/requestDeduplicator.ts` (RequestDeduplicator)
* `src/lib/performance/smartTimeout.ts`        (SmartTimeout, SearchCache)
* `src/lib/search/copilotSearchAgent.ts`       (CopilotSearchAgent)

Conventions of the embedding:

* JavaScript `Map` objects become association lists `List (String × β)`
  with the helper operations `setKey` (Map.set: replace in place or
  append) and `eraseKey` (Map.delete: remove the unique binding);
  JavaScript `Set` objects become `List String` in insertion order.
* Timestamps (`Date.now()`) are passed explicitly as `Nat`
  milliseconds.
* Asynchronous operations (the zero-argument functions handed to the
  executor, deduplicator and cache users) are identified by an opaque
  numeric handle (`opId`): two callers holding the same handle await
  the same underlying promise and therefore observe the same resolved
  value or the same error.
* Floating-point arithmetic of the timeout formula is modelled exactly
  over the integers: `avg * 0.5` and `Math.ceil` are folded into the
  exact ceiling division `ceilDiv`.
-/

/-- Exact ceiling division on naturals, `⌈a / b⌉`. -/
def ceilDiv (a b : Nat) : Nat := (a + b - 1) / b

/-- JavaScript `x || d` for an optional numeric configuration field:
a missing or zero value falls back to the default `d`. -/
def orDefault (x : Option Nat) (d : Nat) : Nat :=
  match x with
  | none => d
  | some v => if v = 0 then d else v

/-- `Map.set k v`: replace the binding of `k` in place if present,
otherwise append the new binding at the end (insertion order). -/
def setKey {β : Type} (k : String) (v : β) : List (String × β) → List (String × β)
  | [] => [(k, v)]
  | (k1, v1) :: rest => if k1 = k then (k, v) :: rest else (k1, v1) :: setKey k v rest

/-- `Map.delete k`: remove the (unique) binding of `k` if present. -/
def eraseKey {β : Type} (k : String) : List (String × β) → List (String × β)
  | [] => []
  | (k1, v1) :: rest => if k1 = k then rest else (k1, v1) :: eraseKey k rest

theorem lookup_setKey_self {β : Type} (k : String) (v : β) (l : List (String × β)) :
    List.lookup k (setKey k v l) = some v := by
  induction l with
  | nil => simp [setKey, List.lookup]
  | cons hd tl ih =>
    by_cases h : hd.1 = k
    · simp [setKey, h, List.lookup]
    · simp only [setKey, h, if_false]
      have hbeq : (k == hd.1) = false := by
        simp [beq_iff_eq]
        intro he; exact h he.symm
      simpa [List.lookup, hbeq] using ih

theorem lookup_setKey_ne {β : Type} (k k2 : String) (v : β) (l : List (String × β))
    (h : k2 ≠ k) : List.lookup k2 (setKey k v l) = List.lookup k2 l := by
  have hbk : (k2 == k) = false := by simp [h]
  induction l with
  | nil => simp [setKey, List.lookup, hbk]
  | cons hd tl ih =>
    obtain ⟨k1, v1⟩ := hd
    by_cases hh : k1 = k
    · subst hh
      simp [setKey, List.lookup, hbk]
    · by_cases h2 : k2 = k1
      · simp [setKey, hh, List.lookup, h2]
      · have hbeq : (k2 == k1) = false := by simp [h2]
        simp only [setKey, hh, if_false, List.lookup, hbeq]
        exact ih

theorem lookup_none_of_not_mem_keys {β : Type} (k : String) (l : List (String × β))
    (h : k ∉ l.map Prod.fst) : List.lookup k l = none := by
  induction l with
  | nil => simp [List.lookup]
  | cons hd tl ih =>
    simp only [List.map_cons, List.mem_cons, not_or] at h
    have hbeq : (k == hd.1) = false := by simp [beq_iff_eq, h.1]
    simp only [List.lookup, hbeq]
    exact ih h.2

theorem lookup_eraseKey_self {β : Type} (k : String) (l : List (String × β))
    (hnd : (l.map Prod.fst).Nodup) : List.lookup k (eraseKey k l) = none := by
  induction l with
  | nil => simp [eraseKey, List.lookup]
  | cons hd tl ih =>
    simp only [List.map_cons, List.nodup_cons] at hnd
    by_cases h : hd.1 = k
    · subst h
      simp only [eraseKey, if_true]
      exact lookup_none_of_not_mem_keys hd.1 tl hnd.1
    · have hbeq : (k == hd.1) = false := by
        simp [beq_iff_eq]; intro he; exact h he.symm
      simp only [eraseKey, h, if_false, List.lookup, hbeq]
      exact ih hnd.2

theorem lookup_eraseKey_ne {β : Type} (k k2 : String) (l : List (String × β))
    (h : k2 ≠ k) : List.lookup k2 (eraseKey k l) = List.lookup k2 l := by
  have hbk : (k2 == k) = false := by simp [h]
  induction l with
  | nil => simp [eraseKey]
  | cons hd tl ih =>
    obtain ⟨k1, v1⟩ := hd
    by_cases hh : k1 = k
    · subst hh
      simp [eraseKey, List.lookup, hbk]
    · by_cases h2 : k2 = k1
      · simp [eraseKey, hh, List.lookup, h2]
      · have hbeq : (k2 == k1) = false := by simp [h2]
        simp only [eraseKey, hh, if_false, List.lookup, hbeq]
        exact ih

theorem length_eraseKey_of_lookup {β : Type} (k : String) (l : List (String × β))
    (h : (List.lookup k l).isSome) : (eraseKey k l).length + 1 = l.length := by
  induction l with
  | nil => simp [List.lookup] at h
  | cons hd tl ih =>
    by_cases hh : hd.1 = k
    · simp [eraseKey, hh]
    · have hbeq : (k == hd.1) = false := by
        simp [beq_iff_eq]; intro he; exact hh he.symm
      simp only [List.lookup, hbeq] at h
      simp only [eraseKey, hh, if_false, List.length_cons]
      have hih := ih h
      omega

theorem length_eraseKey_le {β : Type} (k : String) (l : List (String × β)) :
    (eraseKey k l).length ≤ l.length := by
  induction l with
  | nil => simp [eraseKey]
  | cons hd tl ih =>
    by_cases hh : hd.1 = k
    · simp [eraseKey, hh]
    · simp only [eraseKey, hh, if_false, List.length_cons]
      omega

theorem length_setKey_of_lookup_none {β : Type} (k : String) (v : β) (l : List (String × β))
    (h : List.lookup k l = none) : (setKey k v l).length = l.length + 1 := by
  induction l with
  | nil => simp [setKey]
  | cons hd tl ih =>
    by_cases hh : hd.1 = k
    · exfalso
      have hbeq : (k == hd.1) = true := by simp [beq_iff_eq, hh.symm]
      simp [List.lookup, hbeq] at h
    · have hbeq : (k == hd.1) = false := by
        simp [beq_iff_eq]; intro he; exact hh he.symm
      simp only [List.lookup, hbeq] at h
      simp only [setKey, hh, if_false, List.length_cons, ih h]

theorem length_setKey_of_lookup_some {β : Type} (k : String) (v : β) (l : List (String × β))
    (h : (List.lookup k l).isSome) : (setKey k v l).length = l.length := by
  induction l with
  | nil => simp [List.lookup] at h
  | cons hd tl ih =>
    by_cases hh : hd.1 = k
    · simp [setKey, hh]
    · have hbeq : (k == hd.1) = false := by
        simp [beq_iff_eq]; intro he; exact hh he.symm
      simp only [List.lookup, hbeq] at h
      simp only [setKey, hh, if_false, List.length_cons, ih h]

theorem mem_of_mem_eraseKey {β : Type} {k : String} {p : String × β} :
    ∀ {l : List (String × β)}, p ∈ eraseKey k l → p ∈ l := by
  intro l
  induction l with
  | nil => intro h; simp [eraseKey] at h
  | cons hd tl ih =>
    intro hmem
    by_cases hh : hd.1 = k
    · simp only [eraseKey, hh, if_true] at hmem
      exact List.mem_cons_of_mem hd hmem
    · simp only [eraseKey, hh, if_false, List.mem_cons] at hmem
      rcases hmem with h1 | h2
      · exact h1 ▸ List.mem_cons_self hd tl
      · exact List.mem_cons_of_mem hd (ih h2)

theorem nodupKeys_eraseKey {β : Type} (k : String) (l : List (String × β))
    (h : (l.map Prod.fst).Nodup) : ((eraseKey k l).map Prod.fst).Nodup := by
  induction l with
  | nil => simp [eraseKey]
  | cons hd tl ih =>
    simp only [List.map_cons, List.nodup_cons] at h
    by_cases hh : hd.1 = k
    · simpa [eraseKey, hh] using h.2
    · simp only [eraseKey, hh, if_false, List.map_cons, List.nodup_cons]
      refine ⟨fun hmem => ?_, ih h.2⟩
      have hkey : hd.1 ∈ tl.map Prod.fst := by
        rcases List.mem_map.mp hmem with ⟨p, hp, hfst⟩
        have hp2 : p ∈ tl := mem_of_mem_eraseKey hp
        exact hfst ▸ List.mem_map_of_mem Prod.fst hp2
      exact h.1 hkey

/-!
## ParallelProcessor (`src/lib/performance/parallelProcessor.ts`)
-/

/-- A `ParallelTask<T>`: string identity, the zero-argument asynchronous
unit of work (identified by the opaque handle `opId`), optional priority
and optional timeout override. -/
structure ParallelTask where
  id : String
  opId : Nat
  priority : Option Int
  timeout : Option Nat
deriving DecidableEq

/-- `ProcessorConfig` of the parallel processor. -/
structure ProcessorConfig where
  maxConcurrency : Nat
  defaultTimeout : Nat
  retryAttempts : Nat
  retryDelay : Nat
deriving DecidableEq

namespace ParallelProcessor

/-- The `ParallelProcessor` constructor: each field falls back to its
default via JavaScript `||` when missing or zero. -/
def mkConfig (maxConcurrency defaultTimeout retryAttempts retryDelay : Option Nat) :
    ProcessorConfig :=
  ⟨orDefault maxConcurrency 5, orDefault defaultTimeout 30000,
    orDefault retryAttempts 3, orDefault retryDelay 1000⟩

/-- The configuration of `new ParallelProcessor({})`. -/
def defaultConfig : ProcessorConfig := mkConfig none none none none

/-- Number of task functions started during the synchronous phase of
`execute(tasks)`.  `execute` maps every task straight into
`Promise.all(tasks.map(task => this.executeTask(task)))`; each
`executeTask` call synchronously invokes the task function (via
`runTaskWithRetry` / `Promise.race`) unless `activeJobs` already holds
the task id, and registers the id in `activeJobs` before the next task
is mapped.  Since the event loop cannot settle any promise until the
synchronous phase ends, every started task function is still running
when the last one starts.  The accumulator is the set of active ids. -/
def startedCount : List ParallelTask → List String → Nat
  | [], _ => 0
  | t :: ts, active =>
    if t.id ∈ active then startedCount ts active
    else startedCount ts (t.id :: active) + 1

/-- Peak number of simultaneously running task functions reached by
`execute(tasks)` right after its synchronous start phase.  The
configuration is a parameter only to document that the code never
consults it: `maxConcurrency`, `queue` and `running` are dead in
`execute`. -/
def simultaneousTaskStarts (_cfg : ProcessorConfig) (tasks : List ParallelTask) : Nat :=
  startedCount tasks []

/-- `executeTask`: if `activeJobs` already holds the task id, return the
registered in-flight promise without invoking the task's own function;
otherwise start the task, register its promise under the id, and report
that a fresh invocation happened.  Result: (handle of the promise the
caller awaits, new `activeJobs` table, whether the task function was
invoked). -/
def executeTaskStep (active : List (String × Nat)) (t : ParallelTask) :
    Nat × List (String × Nat) × Bool :=
  match List.lookup t.id active with
  | some p => (p, active, false)
  | none => (t.opId, active ++ [(t.id, t.opId)], true)

/-- The `finally` block of `executeTask`: once the shared promise
settles (resolves or rejects), the id is deleted from `activeJobs`. -/
def settleTask (active : List (String × Nat)) (id : String) : List (String × Nat) :=
  eraseKey id active

end ParallelProcessor

theorem lookup_append_single_self {β : Type} (k : String) (v : β) (l : List (String × β))
    (h : List.lookup k l = none) : List.lookup k (l ++ [(k, v)]) = some v := by
  induction l with
  | nil => simp [List.lookup]
  | cons hd tl ih =>
    by_cases he : k = hd.1
    · simp [List.lookup, he] at h
    · have hbeq : (k == hd.1) = false := by simp [he]
      simp only [List.lookup, hbeq] at h
      simpa [List.lookup, hbeq] using ih h

theorem eraseKey_append_single {β : Type} (k : String) (v : β) (l : List (String × β))
    (h : List.lookup k l = none) : eraseKey k (l ++ [(k, v)]) = l := by
  induction l with
  | nil => simp [eraseKey]
  | cons hd tl ih =>
    obtain ⟨k1, v1⟩ := hd
    by_cases he : k = k1
    · simp [List.lookup, he] at h
    · have hbeq : (k == k1) = false := by simp [he]
      simp only [List.lookup, hbeq] at h
      have hne : k1 ≠ k := fun hx => he hx.symm
      simp only [List.cons_append, eraseKey, hne, if_false]
      rw [show tl.append [(k, v)] = tl ++ [(k, v)] from rfl, ih h]

/-- Six tasks with pairwise distinct ids handed to `execute`. -/
def c1Tasks : List ParallelTask :=
  [⟨"t1", 1, none, none⟩, ⟨"t2", 2, none, none⟩, ⟨"t3", 3, none, none⟩,
    ⟨"t4", 4, none, none⟩, ⟨"t5", 5, none, none⟩, ⟨"t6", 6, none, none⟩]

/-- Claim C1 (code bug):  the claim says `execute` never runs more than
`maxConcurrency` (default 5) task functions simultaneously, but
`execute` starts every distinct-id task at once through `Promise.all`
and never consults `maxConcurrency` (nor the dead `queue`/`running`
fields).  First conjunct: the peak simultaneous count is the same for
every configuration, i.e. the concurrency cap has no effect.  Remaining
conjuncts evaluate the code at the failing input: under the default
configuration (`maxConcurrency = 5`) a list of six distinct-id tasks
puts six task functions in flight at once. -/
theorem c1_execute_ignores_concurrency_cap :
    (∀ cfg1 cfg2 : ProcessorConfig, ∀ tasks : List ParallelTask,
      ParallelProcessor.simultaneousTaskStarts cfg1 tasks =
        ParallelProcessor.simultaneousTaskStarts cfg2 tasks)
    ∧ ParallelProcessor.defaultConfig.maxConcurrency = 5
    ∧ ParallelProcessor.simultaneousTaskStarts ParallelProcessor.defaultConfig c1Tasks = 6 :=
  ⟨fun _ _ _ => rfl, by decide, by decide⟩

/-- Claim C9 (confirmed): the executor deduplicates by task id.  If a
second task with the same id is submitted while the first is still in
`activeJobs`, the second submission does not invoke its own task
function and receives the very same promise handle (hence it resolves
to the same result or rejects with the same error); once the shared
execution settles, the id is released, so a later submission starts a
fresh execution. -/
theorem c9_executeTask_deduplicates_by_id
    (active : List (String × Nat)) (t1 t2 : ParallelTask)
    (hid : t2.id = t1.id) (hfree : List.lookup t1.id active = none) :
    let r1 := ParallelProcessor.executeTaskStep active t1
    let r2 := ParallelProcessor.executeTaskStep r1.2.1 t2
    r1.1 = t1.opId ∧ r1.2.2 = true
    ∧ r2.1 = t1.opId ∧ r2.2.2 = false
    ∧ List.lookup t1.id (ParallelProcessor.settleTask r2.2.1 t1.id) = none := by
  intro r1 r2
  have hstep1 : r1 = (t1.opId, active ++ [(t1.id, t1.opId)], true) := by
    simp only [r1, ParallelProcessor.executeTaskStep, hfree]
  have hlook : List.lookup t1.id (active ++ [(t1.id, t1.opId)]) = some t1.opId :=
    lookup_append_single_self t1.id t1.opId active hfree
  have hstep2 : r2 = (t1.opId, active ++ [(t1.id, t1.opId)], false) := by
    simp only [r2, hstep1, ParallelProcessor.executeTaskStep, hid, hlook]
  refine ⟨by simp [hstep1], by simp [hstep1], by simp [hstep2], by simp [hstep2], ?_⟩
  have hrel : ParallelProcessor.settleTask r2.2.1 t1.id = active := by
    simp only [hstep2, ParallelProcessor.settleTask]
    exact eraseKey_append_single t1.id t1.opId active hfree
  rw [hrel]
  exact hfree


/-- Witness for C9: concrete two-submission scenario on an empty
`activeJobs` table. -/
theorem c9_executeTask_deduplicates_by_id_witness :
    let t1 : ParallelTask := ⟨"job", 42, none, none⟩
    let t2 : ParallelTask := ⟨"job", 43, none, none⟩
    let r1 := ParallelProcessor.executeTaskStep [] t1
    let r2 := ParallelProcessor.executeTaskStep r1.2.1 t2
    r1.1 = 42 ∧ r1.2.2 = true ∧ r2.1 = 42 ∧ r2.2.2 = false
    ∧ List.lookup "job" (ParallelProcessor.settleTask r2.2.1 "job") = none :=
  c9_executeTask_deduplicates_by_id [] ⟨"job", 42, none, none⟩ ⟨"job", 43, none, none⟩
    (by decide) (by decide)

/-!
## RequestDeduplicator (`src/lib/performance/requestDeduplicator.ts`)
-/

/-- A `PendingRequest<T>`: the in-flight promise (`opId` handle), its
registration timestamp and the number of callers sharing it. -/
structure PendingRequest where
  opId : Nat
  timestamp : Nat
  requestCount : Nat
deriving DecidableEq

/-- `DeduplicatorConfig`. -/
structure DeduplicatorConfig where
  maxPendingTime : Nat
  cleanupInterval : Nat
  enabled : Bool
deriving DecidableEq

namespace RequestDeduplicator

/-- The `RequestDeduplicator` constructor defaults
(`maxPendingTime || 30000`, `cleanupInterval || 10000`,
`enabled !== false`). -/
def mkConfig (maxPendingTime cleanupInterval : Option Nat) (enabled : Option Bool) :
    DeduplicatorConfig :=
  ⟨orDefault maxPendingTime 30000, orDefault cleanupInterval 10000,
    match enabled with
    | some false => false
    | _ => true⟩

/-- One call of `deduplicate(key, requestFn)` at time `now`, where
`freshOp` identifies the promise `requestFn()` would create.  Returns
(handle of the promise this caller awaits, new pending table, whether
`requestFn` was invoked).  Mirrors the source: disabled mode invokes
directly without registration; a pending entry younger than
`maxPendingTime` is shared (its `requestCount` is incremented in
place); a stale entry is deleted and a fresh operation is started and
registered with `requestCount = 1`. -/
def deduplicateStep (cfg : DeduplicatorConfig) (pending : List (String × PendingRequest))
    (key : String) (now : Nat) (freshOp : Nat) :
    Nat × List (String × PendingRequest) × Bool :=
  if !cfg.enabled then (freshOp, pending, true)
  else
    match List.lookup key pending with
    | some existing =>
      if now - existing.timestamp < cfg.maxPendingTime then
        (existing.opId,
          setKey key ⟨existing.opId, existing.timestamp, existing.requestCount + 1⟩ pending,
          false)
      else
        (freshOp, (eraseKey key pending) ++ [(key, ⟨freshOp, now, 1⟩)], true)
    | none => (freshOp, pending ++ [(key, ⟨freshOp, now, 1⟩)], true)

/-- The `finally` of `deduplicate`: when the registered promise
settles, its entry is deleted from the pending table. -/
def settle (pending : List (String × PendingRequest)) (key : String) :
    List (String × PendingRequest) :=
  eraseKey key pending

/-- A sequence of further `deduplicate` calls for the same `key`, given
as (time, fresh operation handle) pairs.  Returns the list of
(awaited handle, invoked?) outcomes and the final pending table. -/
def deduplicateRun (cfg : DeduplicatorConfig) (key : String) :
    List (String × PendingRequest) → List (Nat × Nat) →
    List (Nat × Bool) × List (String × PendingRequest)
  | pending, [] => ([], pending)
  | pending, (now, freshOp) :: calls =>
    let r := deduplicateStep cfg pending key now freshOp
    let rest := deduplicateRun cfg key r.2.1 calls
    ((r.1, r.2.2) :: rest.1, rest.2)

end RequestDeduplicator

theorem dedupRun_shares_pending (cfg : DeduplicatorConfig) (key : String) (op1 t1 : Nat)
    (hen : cfg.enabled = true) :
    ∀ (calls : List (Nat × Nat)) (pending : List (String × PendingRequest)),
      (∃ cnt, List.lookup key pending = some ⟨op1, t1, cnt⟩) →
      (∀ c ∈ calls, c.1 - t1 < cfg.maxPendingTime) →
      ∀ x ∈ (RequestDeduplicator.deduplicateRun cfg key pending calls).1, x = (op1, false) := by
  intro calls
  induction calls with
  | nil =>
    intro pending _ _ x hx
    simp [RequestDeduplicator.deduplicateRun] at hx
  | cons c rest ih =>
    intro pending hpend hyoung x hx
    obtain ⟨cnt, hcnt⟩ := hpend
    have hyc : c.1 - t1 < cfg.maxPendingTime := hyoung c (List.mem_cons_self c rest)
    have hstep : RequestDeduplicator.deduplicateStep cfg pending key c.1 c.2 =
        (op1, setKey key ⟨op1, t1, cnt + 1⟩ pending, false) := by
      simp [RequestDeduplicator.deduplicateStep, hen, hcnt, hyc]
    obtain ⟨now, freshOp⟩ := c
    simp only [RequestDeduplicator.deduplicateRun, hstep, List.mem_cons] at hx
    rcases hx with h1 | h2
    · exact h1
    · exact ih (setKey key ⟨op1, t1, cnt + 1⟩ pending)
        ⟨cnt + 1, lookup_setKey_self key ⟨op1, t1, cnt + 1⟩ pending⟩
        (fun c2 hc2 => hyoung c2 (List.mem_cons_of_mem _ hc2)) x h2

/-- Claim C2 (confirmed): with deduplication enabled, a first call of
`deduplicate(key, op)` on a free key invokes `op` and registers its
promise; every further call for the same key issued while that entry is
pending and younger than `maxPendingTime` performs no invocation of its
own and is handed the very same promise handle, hence all callers
observe the same resolved value or the same error.  Exactly one
invocation occurs across the whole set of calls. -/
theorem c2_deduplicate_single_flight (cfg : DeduplicatorConfig)
    (pending : List (String × PendingRequest)) (key : String) (t1 freshOp1 : Nat)
    (calls : List (Nat × Nat))
    (hen : cfg.enabled = true)
    (hfree : List.lookup key pending = none)
    (hyoung : ∀ c ∈ calls, c.1 - t1 < cfg.maxPendingTime) :
    let r1 := RequestDeduplicator.deduplicateStep cfg pending key t1 freshOp1
    let rest := RequestDeduplicator.deduplicateRun cfg key r1.2.1 calls
    r1.1 = freshOp1 ∧ r1.2.2 = true ∧ ∀ x ∈ rest.1, x = (freshOp1, false) := by
  intro r1 rest
  have hstep1 : r1 = (freshOp1, pending ++ [(key, ⟨freshOp1, t1, 1⟩)], true) := by
    simp [r1, RequestDeduplicator.deduplicateStep, hen, hfree]
  refine ⟨by simp [hstep1], by simp [hstep1], ?_⟩
  have hpend : List.lookup key (pending ++ [(key, ⟨freshOp1, t1, 1⟩)]) =
      some ⟨freshOp1, t1, 1⟩ :=
    lookup_append_single_self key ⟨freshOp1, t1, 1⟩ pending hfree
  intro x hx
  exact dedupRun_shares_pending cfg key freshOp1 t1 hen calls
    (pending ++ [(key, ⟨freshOp1, t1, 1⟩)]) ⟨1, hpend⟩ hyoung x (by
      simpa only [rest, hstep1] using hx)

/-- Witness for C2: default-configured deduplicator, one initial call
at time 0 and two further calls at 10ms and 20ms sharing the key. -/
theorem c2_deduplicate_single_flight_witness :
    let cfg := RequestDeduplicator.mkConfig none none none
    let r1 := RequestDeduplicator.deduplicateStep cfg [] "k" 0 7
    let rest := RequestDeduplicator.deduplicateRun cfg "k" r1.2.1 [(10, 8), (20, 9)]
    r1.1 = 7 ∧ r1.2.2 = true ∧ ∀ x ∈ rest.1, x = (7, false) :=
  c2_deduplicate_single_flight (RequestDeduplicator.mkConfig none none none)
    [] "k" 0 7 [(10, 8), (20, 9)] (by decide) (by decide) (by decide)

/-!
## SmartTimeout (`src/lib/performance/smartTimeout.ts`)
-/

/-- A `RequestMetrics` record of one completed operation. -/
structure RequestMetrics where
  duration : Nat
  timestamp : Nat
  success : Bool
deriving DecidableEq

/-- `TimeoutConfig`. -/
structure TimeoutConfig where
  baseTimeout : Nat
  maxTimeout : Nat
  minTimeout : Nat
  adaptiveEnabled : Bool
  historySize : Nat
deriving DecidableEq

namespace SmartTimeout

/-- The `SmartTimeout` constructor defaults. -/
def mkConfig (baseTimeout maxTimeout minTimeout : Option Nat)
    (adaptiveEnabled : Option Bool) (historySize : Option Nat) : TimeoutConfig :=
  ⟨orDefault baseTimeout 30000, orDefault maxTimeout 120000, orDefault minTimeout 5000,
    match adaptiveEnabled with
    | some false => false
    | _ => true,
    orDefault historySize 100⟩

/-- The configuration of `new SmartTimeout({})`. -/
def defaultConfig : TimeoutConfig := mkConfig none none none none none

/-- JavaScript `array.slice(-k)`: the last `k` elements, except that
`slice(-0)` is `slice(0)`, the whole array. -/
def jsSliceLast {α : Type} (k : Nat) (l : List α) : List α :=
  if k = 0 then l else l.drop (l.length - k)

/-- `history.filter(m => m.success).slice(-Math.min(20, historySize))`
mapped to durations: the recent successful durations used by
`calculateAdaptiveTimeout`. -/
def recentSuccessfulDurations (cfg : TimeoutConfig) (history : List RequestMetrics) :
    List Nat :=
  (jsSliceLast (min 20 cfg.historySize) (history.filter (fun m => m.success))).map
    (fun m => m.duration)

/-- The 95th percentile step of `calculateAdaptiveTimeout`: sort the
durations ascending, take index `Math.ceil(n * 0.95) - 1`, and replace
a missing or zero value by the maximum duration (`durations[p95Index]
|| maxDuration`). -/
def p95Duration (durations : List Nat) : Nat :=
  let maxDuration := durations.foldl max 0
  let sorted := List.insertionSort (fun a b => a ≤ b) durations
  let p95Index := ceilDiv (19 * durations.length) 20 - 1
  let raw := sorted.getD p95Index 0
  if raw = 0 then maxDuration else raw

/-- The buffer of `calculateAdaptiveTimeout`:
`Math.max(averageDuration * 0.5, 2000)`, with the final `Math.ceil` of
the source folded in exactly: since the 95th percentile is an integer,
`Math.ceil(p95 + max(sum/(2n), 2000)) = p95 + max(⌈sum/(2n)⌉, 2000)`. -/
def adaptiveBuffer (durations : List Nat) : Nat :=
  max (ceilDiv durations.sum (2 * durations.length)) 2000

/-- `calculateAdaptiveTimeout(requestType)` over the metrics history of
one operation class: base timeout without history or without successful
history, otherwise the 95th percentile of the recent successful
durations plus the buffer, clamped into
`[minTimeout, maxTimeout]` (`Math.max(min, ·)` then `Math.min(max, ·)`). -/
def calculateAdaptiveTimeout (cfg : TimeoutConfig) (history : List RequestMetrics) : Nat :=
  if history.isEmpty then cfg.baseTimeout
  else
    let durations := recentSuccessfulDurations cfg history
    if durations.isEmpty then cfg.baseTimeout
    else
      min cfg.maxTimeout
        (max cfg.minTimeout (p95Duration durations + adaptiveBuffer durations))

end SmartTimeout

theorem jsSliceLast_eq_nil_iff {α : Type} (k : Nat) (l : List α) :
    SmartTimeout.jsSliceLast k l = [] ↔ l = [] := by
  unfold SmartTimeout.jsSliceLast
  by_cases hk : k = 0
  · simp [hk]
  · simp only [hk, if_false]
    constructor
    · intro h
      have hlen := congrArg List.length h
      simp only [List.length_drop, List.length_nil] at hlen
      have : l.length = 0 := by omega
      exact List.eq_nil_of_length_eq_zero this
    · intro h; simp [h]

/-- Claim C4, counterexample: under the default configuration
(`minTimeout = 5000`, `maxTimeout = 120000`) a history consisting of a
single successful 200000ms call gives `p95 = 200000` and a computed
timeout of 120000ms, which is strictly below the 95th-percentile
latency plus the minimum 2000ms buffer — the upper clamp defeats the
claimed lower bound. -/
theorem c4_counterexample :
    SmartTimeout.calculateAdaptiveTimeout SmartTimeout.defaultConfig [⟨200000, 0, true⟩]
        = 120000
    ∧ SmartTimeout.p95Duration
        (SmartTimeout.recentSuccessfulDurations SmartTimeout.defaultConfig
          [⟨200000, 0, true⟩]) = 200000
    ∧ 120000 < 200000 + 2000 := by
  refine ⟨by decide, by decide, by decide⟩

/-- Claim C4 as amended (proved): with no recorded successful duration
the adaptive timeout equals the fixed base timeout; with at least one,
it equals the 95th percentile of the recent successful durations plus a
buffer of at least `max(avg × 0.5, 2000ms)` clamped to
`[minTimeout, maxTimeout]`, so it always lies within
`[minTimeout, maxTimeout]`, and it is ≥ the 95th-percentile latency
plus the minimum 2000ms buffer provided the unclamped value does not
exceed `maxTimeout` (the upper clamp may otherwise push it below that
bound). -/
theorem c4_adaptive_timeout_amended (cfg : TimeoutConfig) (history : List RequestMetrics)
    (hminmax : cfg.minTimeout ≤ cfg.maxTimeout) :
    ((history.filter (fun m => m.success)).isEmpty = true →
      SmartTimeout.calculateAdaptiveTimeout cfg history = cfg.baseTimeout)
    ∧ ((history.filter (fun m => m.success)).isEmpty = false →
      cfg.minTimeout ≤ SmartTimeout.calculateAdaptiveTimeout cfg history
      ∧ SmartTimeout.calculateAdaptiveTimeout cfg history ≤ cfg.maxTimeout
      ∧ (SmartTimeout.p95Duration (SmartTimeout.recentSuccessfulDurations cfg history)
          + SmartTimeout.adaptiveBuffer (SmartTimeout.recentSuccessfulDurations cfg history)
          ≤ cfg.maxTimeout →
        SmartTimeout.p95Duration (SmartTimeout.recentSuccessfulDurations cfg history) + 2000
          ≤ SmartTimeout.calculateAdaptiveTimeout cfg history)) := by
  constructor
  · intro hempty
    unfold SmartTimeout.calculateAdaptiveTimeout
    by_cases hh : history.isEmpty
    · simp [hh]
    · have hfil : history.filter (fun m => m.success) = [] :=
        List.isEmpty_iff.mp hempty
      have hdur : (SmartTimeout.recentSuccessfulDurations cfg history).isEmpty = true := by
        unfold SmartTimeout.recentSuccessfulDurations
        rw [hfil]
        rw [(jsSliceLast_eq_nil_iff (min 20 cfg.historySize) ([] : List RequestMetrics)).mpr rfl]
        rfl
      simp [hh, hdur]
  · intro hnonempty
    have hfil : history.filter (fun m => m.success) ≠ [] := by
      intro h
      rw [h] at hnonempty
      simp at hnonempty
    have hh : history.isEmpty = false := by
      cases history with
      | nil => exact absurd rfl hfil
      | cons a l => rfl
    have hdur : (SmartTimeout.recentSuccessfulDurations cfg history).isEmpty = false := by
      unfold SmartTimeout.recentSuccessfulDurations
      cases hjs : SmartTimeout.jsSliceLast (min 20 cfg.historySize)
          (history.filter (fun m => m.success)) with
      | nil => exact absurd ((jsSliceLast_eq_nil_iff _ _).mp hjs) hfil
      | cons a l => rfl
    have hcalc : SmartTimeout.calculateAdaptiveTimeout cfg history =
        min cfg.maxTimeout
          (max cfg.minTimeout
            (SmartTimeout.p95Duration (SmartTimeout.recentSuccessfulDurations cfg history)
              + SmartTimeout.adaptiveBuffer
                  (SmartTimeout.recentSuccessfulDurations cfg history))) := by
      unfold SmartTimeout.calculateAdaptiveTimeout
      simp [hh, hdur]
    rw [hcalc]
    have hbuf : 2000 ≤ SmartTimeout.adaptiveBuffer
        (SmartTimeout.recentSuccessfulDurations cfg history) :=
      le_max_right _ _
    refine ⟨?_, min_le_left _ _, fun hle => ?_⟩
    · exact le_min hminmax (le_max_left _ _)
    · refine le_min ?_ ?_
      · omega
      · have := le_max_right cfg.minTimeout
          (SmartTimeout.p95Duration (SmartTimeout.recentSuccessfulDurations cfg history)
            + SmartTimeout.adaptiveBuffer
                (SmartTimeout.recentSuccessfulDurations cfg history))
        omega

/-- Witness for C4 (amended): default configuration with two successful
calls of 1000ms and 1200ms; the computed timeout lies within the clamp
bounds and is at least the 95th percentile (1200ms) plus 2000ms. -/
theorem c4_adaptive_timeout_amended_witness :
    SmartTimeout.defaultConfig.minTimeout
        ≤ SmartTimeout.calculateAdaptiveTimeout SmartTimeout.defaultConfig
            [⟨1000, 0, true⟩, ⟨1200, 1, true⟩]
    ∧ SmartTimeout.calculateAdaptiveTimeout SmartTimeout.defaultConfig
        [⟨1000, 0, true⟩, ⟨1200, 1, true⟩] ≤ SmartTimeout.defaultConfig.maxTimeout
    ∧ SmartTimeout.p95Duration
        (SmartTimeout.recentSuccessfulDurations SmartTimeout.defaultConfig
          [⟨1000, 0, true⟩, ⟨1200, 1, true⟩]) + 2000
        ≤ SmartTimeout.calculateAdaptiveTimeout SmartTimeout.defaultConfig
            [⟨1000, 0, true⟩, ⟨1200, 1, true⟩] := by
  have h := c4_adaptive_timeout_amended SmartTimeout.defaultConfig
    [⟨1000, 0, true⟩, ⟨1200, 1, true⟩] (by decide)
  have h2 := h.2 (by decide)
  exact ⟨h2.1, h2.2.1, h2.2.2 (by decide)⟩

/-!
## SearchCache (`src/lib/cache/searchCache.ts`, bundled in
`src/lib/performance/smartTimeout.ts`)
-/

/-- A `CacheEntry<T>`. -/
structure CacheEntry (V : Type) where
  data : V
  timestamp : Nat
  expiresAt : Nat
  hits : Nat
deriving DecidableEq

/-- `CacheConfig`. -/
structure CacheConfig where
  maxSize : Nat
  defaultTTL : Nat
  maxMemoryUsage : Nat
deriving DecidableEq

/-- The mutable state of one `SearchCache` instance: the entry `Map`
and the access-order `Set` (front = least recently used, back = most
recently used). -/
structure CacheState (V : Type) where
  cache : List (String × CacheEntry V)
  accessOrder : List String
deriving DecidableEq

namespace SearchCache

/-- The `SearchCache` constructor defaults. -/
def mkConfig (maxSize defaultTTL maxMemoryUsage : Option Nat) : CacheConfig :=
  ⟨orDefault maxSize 1000, orDefault defaultTTL (30 * 60 * 1000),
    orDefault maxMemoryUsage (100 * 1024 * 1024)⟩

/-- `isExpired(entry)`: `Date.now() > entry.expiresAt` (strict). -/
def isExpired {V : Type} (now : Nat) (e : CacheEntry V) : Bool :=
  decide (e.expiresAt < now)

/-- `updateAccessOrder(key)`: `Set.delete(key)` then `Set.add(key)` —
move the key to the most-recently-used (back) position. -/
def updateAccessOrder (key : String) (ord : List String) : List String :=
  (ord.erase key) ++ [key]

/-- The `while (cache.size >= maxSize) evictLRU()` loop of `set`:
repeatedly delete the entry of the first (least recently used) key of
the access order.  When the access order runs empty while the cache is
still at capacity, `evictLRU` finds `oldestKey === undefined` and
deletes nothing, so the source spins forever; the model returns the
state reached at that point. -/
def evictLoop {V : Type} (maxSize : Nat) :
    List (String × CacheEntry V) → List String →
    List (String × CacheEntry V) × List String
  | cache, [] => (cache, [])
  | cache, oldest :: rest =>
    if maxSize ≤ cache.length then evictLoop maxSize (eraseKey oldest cache) rest
    else (cache, oldest :: rest)

/-- `set(query, focusMode, data, options, ttl)` at time `now` for the
already-hashed `key`: drop the key from the access order if it is
being overwritten, evict while at capacity, insert the fresh entry
(`expiresAt = now + ttl`, `hits = 0`) and mark the key most recently
used. -/
def set {V : Type} (cfg : CacheConfig) (now : Nat) (key : String) (v : V) (ttl : Nat)
    (st : CacheState V) : CacheState V :=
  let ord1 := if (List.lookup key st.cache).isSome then st.accessOrder.erase key
              else st.accessOrder
  let r := evictLoop cfg.maxSize st.cache ord1
  ⟨setKey key ⟨v, now, now + ttl, 0⟩ r.1, updateAccessOrder key r.2⟩

/-- `get(query, focusMode, options)` at time `now` for the hashed
`key`: a missing key returns `null`; an expired entry is deleted from
the cache and the access order and reported absent; a live entry gets
its hit count incremented, is moved to the most-recently-used position,
and its data is returned. -/
def get {V : Type} (now : Nat) (key : String) (st : CacheState V) :
    Option V × CacheState V :=
  match List.lookup key st.cache with
  | none => (none, st)
  | some e =>
    if isExpired now e then (none, ⟨eraseKey key st.cache, st.accessOrder.erase key⟩)
    else
      (some e.data,
        ⟨setKey key ⟨e.data, e.timestamp, e.expiresAt, e.hits + 1⟩ st.cache,
          updateAccessOrder key st.accessOrder⟩)

/-- `has(query, focusMode, options)` at time `now` for the hashed
`key`: deletes an expired entry (and its access-order record) and
returns `false`; returns `true` on a live entry without touching hit
count or recency. -/
def has {V : Type} (now : Nat) (key : String) (st : CacheState V) :
    Bool × CacheState V :=
  match List.lookup key st.cache with
  | none => (false, st)
  | some e =>
    if isExpired now e then (false, ⟨eraseKey key st.cache, st.accessOrder.erase key⟩)
    else (true, st)

/-- Well-formedness of a cache state, maintained by construction in the
source because `cache` is a `Map` (unique keys) and `accessOrder` a
`Set` (unique elements) updated in lockstep with the map. -/
def WF {V : Type} (st : CacheState V) : Prop :=
  (st.cache.map Prod.fst).Nodup ∧ st.accessOrder.Nodup
  ∧ (∀ k ∈ st.accessOrder, (List.lookup k st.cache).isSome = true)
  ∧ (∀ p ∈ st.cache, p.1 ∈ st.accessOrder)

instance {V : Type} [DecidableEq V] (st : CacheState V) : Decidable (WF st) := by
  unfold WF
  infer_instance

end SearchCache

/-- Concrete cache state for the C3 boundary counterexample: one entry
`"k"` whose `expiresAt` is 100 and which has been hit 7 times. -/
def c3State : CacheState String := ⟨[("k", ⟨"v", 0, 100, 7⟩)], ["k"]⟩

/-- Claim C3, counterexample: at `now = expiresAt` (100 ≥ 100) the
claim demands that `get` report the entry absent, but `isExpired` uses
the strict comparison `Date.now() > expiresAt`, so `get` still returns
the stored value at the expiry instant. -/
theorem c3_counterexample :
    List.lookup "k" c3State.cache = some ⟨"v", 0, 100, 7⟩
    ∧ (SearchCache.get 100 "k" c3State).1 = some "v" := by
  refine ⟨by decide, by decide⟩

/-- Claim C3 as amended (proved): `get` returns the stored value
whenever `now ≤ expiresAt` and returns absent — removing the entry from
the cache — whenever `now > expiresAt` (strict), regardless of the
entry's prior hit count. -/
theorem c3_get_respects_expiry_amended {V : Type} (st : CacheState V) (key : String)
    (e : CacheEntry V) (now : Nat)
    (hnd : (st.cache.map Prod.fst).Nodup)
    (hl : List.lookup key st.cache = some e) :
    (now ≤ e.expiresAt → (SearchCache.get now key st).1 = some e.data)
    ∧ (e.expiresAt < now →
        (SearchCache.get now key st).1 = none
        ∧ List.lookup key (SearchCache.get now key st).2.cache = none) := by
  constructor
  · intro hlive
    have hexp : SearchCache.isExpired now e = false := by
      simp [SearchCache.isExpired]
      omega
    simp [SearchCache.get, hl, hexp]
  · intro hdead
    have hexp : SearchCache.isExpired now e = true := by
      simp [SearchCache.isExpired]
      omega
    refine ⟨by simp [SearchCache.get, hl, hexp], ?_⟩
    simp only [SearchCache.get, hl, hexp, if_true]
    exact lookup_eraseKey_self key st.cache hnd

/-- Witness for C3 (amended): the two branches evaluated on a concrete
one-entry cache, before and after the expiry instant. -/
theorem c3_get_respects_expiry_amended_witness :
    (SearchCache.get 50 "k" c3State).1 = some "v"
    ∧ (SearchCache.get 101 "k" c3State).1 = none := by
  have h1 := c3_get_respects_expiry_amended c3State "k" ⟨"v", 0, 100, 7⟩ 50
    (by decide) (by decide)
  have h2 := c3_get_respects_expiry_amended c3State "k" ⟨"v", 0, 100, 7⟩ 101
    (by decide) (by decide)
  exact ⟨h1.1 (by decide), (h2.2 (by decide)).1⟩

/-- Claim C10 (confirmed): `has` is not a pure observer.  On an entry
expired at time `now` it deletes the entry from the cache and its
record from the access order and returns `false`; on a live entry it
returns `true` and leaves the entire state — hit count and recency
position included — unchanged. -/
theorem c10_has_deletes_expired_frames_live {V : Type} (st : CacheState V) (key : String)
    (e : CacheEntry V) (now : Nat)
    (hndc : (st.cache.map Prod.fst).Nodup)
    (hndo : st.accessOrder.Nodup)
    (hl : List.lookup key st.cache = some e) :
    (e.expiresAt < now →
      (SearchCache.has now key st).1 = false
      ∧ List.lookup key (SearchCache.has now key st).2.cache = none
      ∧ key ∉ (SearchCache.has now key st).2.accessOrder)
    ∧ (now ≤ e.expiresAt →
      (SearchCache.has now key st).1 = true
      ∧ (SearchCache.has now key st).2 = st) := by
  constructor
  · intro hdead
    have hexp : SearchCache.isExpired now e = true := by
      simp [SearchCache.isExpired]
      omega
    refine ⟨by simp [SearchCache.has, hl, hexp], ?_, ?_⟩
    · simp only [SearchCache.has, hl, hexp, if_true]
      exact lookup_eraseKey_self key st.cache hndc
    · simp only [SearchCache.has, hl, hexp, if_true]
      intro hmem
      exact ((List.Nodup.mem_erase_iff hndo).mp hmem).1 rfl
  · intro hlive
    have hexp : SearchCache.isExpired now e = false := by
      simp [SearchCache.isExpired]
      omega
    exact ⟨by simp [SearchCache.has, hl, hexp], by simp [SearchCache.has, hl, hexp]⟩

/-- Witness for C10: concrete one-entry cache probed by `has` after and
before expiry. -/
theorem c10_has_deletes_expired_frames_live_witness :
    ((SearchCache.has 101 "k" c3State).1 = false
      ∧ List.lookup "k" (SearchCache.has 101 "k" c3State).2.cache = none
      ∧ "k" ∉ (SearchCache.has 101 "k" c3State).2.accessOrder)
    ∧ ((SearchCache.has 100 "k" c3State).1 = true
      ∧ (SearchCache.has 100 "k" c3State).2 = c3State) := by
  have h1 := c10_has_deletes_expired_frames_live c3State "k" ⟨"v", 0, 100, 7⟩ 101
    (by decide) (by decide) (by decide)
  have h2 := c10_has_deletes_expired_frames_live c3State "k" ⟨"v", 0, 100, 7⟩ 100
    (by decide) (by decide) (by decide)
  exact ⟨h1.1 (by decide), h2.2 (by decide)⟩

theorem lookup_isSome_of_mem {β : Type} {p : String × β} :
    ∀ {l : List (String × β)}, p ∈ l → (List.lookup p.1 l).isSome = true := by
  intro l
  induction l with
  | nil => intro h; simp at h
  | cons hd tl ih =>
    intro hmem
    by_cases hb : p.1 = hd.1
    · have hbeq : (p.1 == hd.1) = true := by simp [hb]
      simp [List.lookup, hbeq]
    · have hbeq : (p.1 == hd.1) = false := by simp [hb]
      rcases List.mem_cons.mp hmem with h1 | h2
      · exact absurd (congrArg Prod.fst h1) hb
      · simp only [List.lookup, hbeq]
        exact ih h2

theorem fst_ne_of_mem_eraseKey {β : Type} {k : String} {p : String × β}
    {l : List (String × β)} (hnd : (l.map Prod.fst).Nodup)
    (hmem : p ∈ eraseKey k l) : p.1 ≠ k := by
  induction l with
  | nil => simp [eraseKey] at hmem
  | cons hd tl ih =>
    simp only [List.map_cons, List.nodup_cons] at hnd
    by_cases hh : hd.1 = k
    · subst hh
      simp only [eraseKey, if_true] at hmem
      intro hpk
      exact hnd.1 (hpk ▸ List.mem_map_of_mem Prod.fst hmem)
    · simp only [eraseKey, hh, if_false, List.mem_cons] at hmem
      rcases hmem with h1 | h2
      · intro hpk
        exact hh (by rw [← hpk, h1])
      · exact ih hnd.2 h2

theorem evictLoop_no_evict {V : Type} (m : Nat) (c : List (String × CacheEntry V))
    (o : List String) (h : c.length < m) : SearchCache.evictLoop m c o = (c, o) := by
  cases o with
  | nil => rfl
  | cons o1 rest =>
    have hc : ¬ m ≤ c.length := by omega
    simp [SearchCache.evictLoop, hc]

theorem evictLoop_nodupKeys {V : Type} (m : Nat) :
    ∀ (o : List String) (c : List (String × CacheEntry V)),
      (c.map Prod.fst).Nodup → ((SearchCache.evictLoop m c o).1.map Prod.fst).Nodup := by
  intro o
  induction o with
  | nil => intro c hc; exact hc
  | cons o1 rest ih =>
    intro c hc
    by_cases hm : m ≤ c.length
    · simp only [SearchCache.evictLoop, hm, if_true]
      exact ih (eraseKey o1 c) (nodupKeys_eraseKey o1 c hc)
    · simp only [SearchCache.evictLoop, hm, if_false]
      exact hc

theorem evictLoop_cover {V : Type} (m : Nat) (kx : String) :
    ∀ (o : List String) (c : List (String × CacheEntry V)),
      (c.map Prod.fst).Nodup →
      (∀ p ∈ c, p.1 ∈ o ∨ p.1 = kx) →
      ((SearchCache.evictLoop m c o).1.length < m
        ∨ ∀ p ∈ (SearchCache.evictLoop m c o).1, p.1 = kx) := by
  intro o
  induction o with
  | nil =>
    intro c _ hcov
    right
    intro p hp
    rcases hcov p hp with h1 | h2
    · simp at h1
    · exact h2
  | cons o1 rest ih =>
    intro c hnd hcov
    by_cases hm : m ≤ c.length
    · simp only [SearchCache.evictLoop, hm, if_true]
      refine ih (eraseKey o1 c) (nodupKeys_eraseKey o1 c hnd) ?_
      intro p hp
      have hne : p.1 ≠ o1 := fst_ne_of_mem_eraseKey hnd hp
      rcases hcov p (mem_of_mem_eraseKey hp) with h1 | h2
      · rcases List.mem_cons.mp h1 with ha | hb
        · exact absurd ha hne
        · exact Or.inl hb
      · exact Or.inr h2
    · simp only [SearchCache.evictLoop, hm, if_false]
      left
      omega

theorem length_le_one_of_keys_eq {V : Type} (kx : String)
    (c : List (String × CacheEntry V)) (hnd : (c.map Prod.fst).Nodup)
    (hkeys : ∀ p ∈ c, p.1 = kx) : c.length ≤ 1 := by
  cases c with
  | nil => simp
  | cons hd tl =>
    cases tl with
    | nil => simp
    | cons hd2 tl2 =>
      exfalso
      simp only [List.map_cons, List.nodup_cons, List.mem_cons, List.mem_map] at hnd
      have h1 : hd.1 = kx := hkeys hd (List.mem_cons_self _ _)
      have h2 : hd2.1 = kx :=
        hkeys hd2 (List.mem_cons_of_mem _ (List.mem_cons_self _ _))
      exact hnd.1 (Or.inl (h1.trans h2.symm))

theorem length_setKey_le {β : Type} (k : String) (v : β) (l : List (String × β)) :
    (setKey k v l).length ≤ l.length + 1 := by
  cases hs : List.lookup k l with
  | none => rw [length_setKey_of_lookup_none k v l hs]
  | some w =>
    rw [length_setKey_of_lookup_some k v l (by simp [hs])]
    omega

/-- Claim C7 (confirmed), in four parts over an arbitrary well-formed
cache state.  (1) Inserting a fresh key while the cache holds exactly
`maxSize` entries evicts precisely the least-recently-used key (the
front of the access order): that key's entry disappears, every other
entry survives untouched, the fresh entry is present, and the size is
back at `maxSize`.  (2) `set` never leaves the cache with more than
`maxSize` entries (for `maxSize ≥ 1`).  (3) A successful `get` moves
the key to the most-recently-used (back) position.  (4) So does every
`set`. -/
theorem getLast?_append_singleton {α : Type} (l : List α) (a : α) :
    (l ++ [a]).getLast? = some a := by
  exact List.getLast?_concat l

theorem set_at_capacity_evicts_lru (V : Type) (cfg : CacheConfig) (st : CacheState V)
    (now2 ttl : Nat) (v : V) (keyn lru : String) (rest2 : List String)
    (hWF : SearchCache.WF st)
    (hfree : List.lookup keyn st.cache = none)
    (hlen : st.cache.length = cfg.maxSize)
    (hord : st.accessOrder = lru :: rest2) :
    SearchCache.set cfg now2 keyn v ttl st =
      ⟨setKey keyn ⟨v, now2, now2 + ttl, 0⟩ (eraseKey lru st.cache),
        (rest2.erase keyn) ++ [keyn]⟩ := by
  obtain ⟨hndc, hndo, hsome, hcov⟩ := hWF
  have hlru : (List.lookup lru st.cache).isSome = true :=
    hsome lru (by rw [hord]; exact List.mem_cons_self _ _)
  have hlenerase : (eraseKey lru st.cache).length + 1 = st.cache.length :=
    length_eraseKey_of_lookup lru st.cache hlru
  have hm : cfg.maxSize ≤ st.cache.length := by omega
  have hlt : (eraseKey lru st.cache).length < cfg.maxSize := by omega
  unfold SearchCache.set
  rw [hord]
  simp only [hfree, Option.isSome_none, Bool.false_eq_true, if_false,
    SearchCache.evictLoop, hm, if_true,
    evictLoop_no_evict cfg.maxSize (eraseKey lru st.cache) rest2 hlt,
    SearchCache.updateAccessOrder]

/-- Claim C7 (confirmed), in four parts over an arbitrary well-formed
cache state.  (1) Inserting a fresh key while the cache holds exactly
`maxSize` entries evicts precisely the least-recently-used key (the
front of the access order): that key's entry disappears, every other
entry survives untouched, the fresh entry is present, and the size is
back at `maxSize`.  (2) `set` never leaves the cache with more than
`maxSize` entries (for `maxSize ≥ 1`).  (3) A successful `get` moves
the key to the most-recently-used (back) position.  (4) So does every
`set`. -/
theorem c7_lru_eviction_and_capacity (V : Type) (cfg : CacheConfig) :
    (∀ (st : CacheState V) (now2 ttl : Nat) (v : V) (keyn lru : String)
        (rest2 : List String),
      SearchCache.WF st →
      List.lookup keyn st.cache = none →
      st.cache.length = cfg.maxSize →
      st.accessOrder = lru :: rest2 →
      List.lookup lru (SearchCache.set cfg now2 keyn v ttl st).cache = none
      ∧ List.lookup keyn (SearchCache.set cfg now2 keyn v ttl st).cache
          = some ⟨v, now2, now2 + ttl, 0⟩
      ∧ (∀ k2, k2 ≠ lru → k2 ≠ keyn →
          List.lookup k2 (SearchCache.set cfg now2 keyn v ttl st).cache
            = List.lookup k2 st.cache)
      ∧ (SearchCache.set cfg now2 keyn v ttl st).cache.length = cfg.maxSize)
    ∧ (∀ (st : CacheState V) (now2 : Nat) (keyn : String) (v : V) (ttl : Nat),
      SearchCache.WF st → 1 ≤ cfg.maxSize →
      (SearchCache.set cfg now2 keyn v ttl st).cache.length ≤ cfg.maxSize)
    ∧ (∀ (st : CacheState V) (now2 : Nat) (keyn : String) (e : CacheEntry V),
      List.lookup keyn st.cache = some e → SearchCache.isExpired now2 e = false →
      (SearchCache.get now2 keyn st).2.accessOrder.getLast? = some keyn)
    ∧ (∀ (st : CacheState V) (now2 : Nat) (keyn : String) (v : V) (ttl : Nat),
      (SearchCache.set cfg now2 keyn v ttl st).accessOrder.getLast? = some keyn) := by
  refine ⟨?_, ?_, ?_, ?_⟩
  · intro st now2 ttl v keyn lru rest2 hWF hfree hlen hord
    have hset := set_at_capacity_evicts_lru V cfg st now2 ttl v keyn lru rest2
      hWF hfree hlen hord
    obtain ⟨hndc, hndo, hsome, hcov⟩ := hWF
    have hlru : (List.lookup lru st.cache).isSome = true :=
      hsome lru (by rw [hord]; exact List.mem_cons_self _ _)
    have hkne : keyn ≠ lru := by
      intro he
      rw [← he, hfree] at hlru
      simp at hlru
    have hlenerase : (eraseKey lru st.cache).length + 1 = st.cache.length :=
      length_eraseKey_of_lookup lru st.cache hlru
    refine ⟨?_, ?_, ?_, ?_⟩
    · rw [hset]
      have h1 : List.lookup lru
          (setKey keyn (⟨v, now2, now2 + ttl, 0⟩ : CacheEntry V) (eraseKey lru st.cache))
          = List.lookup lru (eraseKey lru st.cache) :=
        lookup_setKey_ne keyn lru _ _ (fun he => hkne he.symm)
      rw [h1]
      exact lookup_eraseKey_self lru st.cache hndc
    · rw [hset]
      exact lookup_setKey_self keyn _ _
    · intro k2 hk2lru hk2key
      rw [hset]
      have h1 : List.lookup k2
          (setKey keyn (⟨v, now2, now2 + ttl, 0⟩ : CacheEntry V) (eraseKey lru st.cache))
          = List.lookup k2 (eraseKey lru st.cache) :=
        lookup_setKey_ne keyn k2 _ _ hk2key
      rw [h1]
      exact lookup_eraseKey_ne lru k2 st.cache hk2lru
    · rw [hset]
      have hkn : List.lookup keyn (eraseKey lru st.cache) = none := by
        rw [lookup_eraseKey_ne lru keyn st.cache hkne]
        exact hfree
      rw [length_setKey_of_lookup_none keyn _ _ hkn]
      omega
  · intro st now2 keyn v ttl hWF hm1
    obtain ⟨hndc, hndo, hsome, hcov⟩ := hWF
    have hcache : (SearchCache.set cfg now2 keyn v ttl st).cache =
        setKey keyn ⟨v, now2, now2 + ttl, 0⟩
          ((SearchCache.evictLoop cfg.maxSize st.cache
            (if (List.lookup keyn st.cache).isSome then st.accessOrder.erase keyn
              else st.accessOrder)).1) := rfl
    rw [hcache]
    have hcover : ∀ p ∈ st.cache,
        p.1 ∈ (if (List.lookup keyn st.cache).isSome then st.accessOrder.erase keyn
          else st.accessOrder) ∨ p.1 = keyn := by
      intro p hp
      by_cases hpk : p.1 = keyn
      · exact Or.inr hpk
      · left
        by_cases hks : (List.lookup keyn st.cache).isSome
        · simp only [hks, if_true]
          exact (List.mem_erase_of_ne hpk).mpr (hcov p hp)
        · simp only [hks, if_false]
          exact hcov p hp
    rcases evictLoop_cover cfg.maxSize keyn
        (if (List.lookup keyn st.cache).isSome then st.accessOrder.erase keyn
          else st.accessOrder) st.cache hndc hcover with hlt | hall
    · exact le_trans (length_setKey_le keyn _ _) (by omega)
    · have hnd2 := evictLoop_nodupKeys cfg.maxSize
        (if (List.lookup keyn st.cache).isSome then st.accessOrder.erase keyn
          else st.accessOrder) st.cache hndc
      have hle1 := length_le_one_of_keys_eq keyn _ hnd2 hall
      cases hc2 : (SearchCache.evictLoop cfg.maxSize st.cache
          (if (List.lookup keyn st.cache).isSome then st.accessOrder.erase keyn
            else st.accessOrder)).1 with
      | nil =>
        simpa [setKey] using hm1
      | cons hd tl =>
        have hmem : hd ∈ (SearchCache.evictLoop cfg.maxSize st.cache
            (if (List.lookup keyn st.cache).isSome then st.accessOrder.erase keyn
              else st.accessOrder)).1 := by
          rw [hc2]; exact List.mem_cons_self _ _
        have hdk : hd.1 = keyn := hall hd hmem
        have hsome2 : (List.lookup keyn (hd :: tl)).isSome = true := by
          have hx := lookup_isSome_of_mem hmem
          rw [hdk] at hx
          rwa [hc2] at hx
        rw [length_setKey_of_lookup_some keyn _ _ hsome2]
        rw [hc2] at hle1
        omega
  · intro st now2 keyn e hl hexp
    simp only [SearchCache.get, hl, hexp, if_false, SearchCache.updateAccessOrder]
    exact getLast?_append_singleton _ keyn
  · intro st now2 keyn v ttl
    unfold SearchCache.set
    simp only [SearchCache.updateAccessOrder]
    exact getLast?_append_singleton _ keyn

/-- Witness for C7: a two-entry cache at capacity `maxSize = 2` with
access order `["a", "b"]`; inserting the fresh key `"c"` evicts exactly
`"a"`, keeps the size at 2 and marks `"c"` most recently used. -/
theorem c7_lru_eviction_and_capacity_witness :
    let cfg : CacheConfig := ⟨2, 1000, 1000⟩
    let stW : CacheState Nat := ⟨[("a", ⟨1, 0, 100, 0⟩), ("b", ⟨2, 0, 100, 0⟩)], ["a", "b"]⟩
    List.lookup "a" (SearchCache.set cfg 10 "c" 3 50 stW).cache = none
    ∧ List.lookup "c" (SearchCache.set cfg 10 "c" 3 50 stW).cache = some ⟨3, 10, 10 + 50, 0⟩
    ∧ (SearchCache.set cfg 10 "c" 3 50 stW).cache.length = 2
    ∧ (SearchCache.set cfg 10 "c" 3 50 stW).accessOrder.getLast? = some "c" := by
  intro cfg stW
  have h := c7_lru_eviction_and_capacity Nat cfg
  have h1 := h.1 stW 10 50 3 "c" "a" ["b"] (by decide) (by decide) (by decide) (by decide)
  exact ⟨h1.1, h1.2.1, h1.2.2.2, h.2.2.2 stW 10 "c" 3 50⟩

/-!
## CopilotSearchAgent (`src/lib/search/copilotSearchAgent.ts`)
-/

namespace CopilotSearchAgent

/-- `createCopilotChain`'s optimization-mode-dependent maximum number
of sub-queries: 2 for speed, 3 for balanced, 4 otherwise (quality). -/
def maxQueriesFor (optimizationMode : String) : Nat :=
  if optimizationMode = "speed" then 2
  else if optimizationMode = "balanced" then 3
  else 4

/-- Character-level test that `pat` starts `s` (for the regex model). -/
def leadsWith : List Char → List Char → Bool
  | [], _ => true
  | _ :: _, [] => false
  | p :: ps, c :: cs => p == c && leadsWith ps cs

/-- The tail of `s` after the first occurrence of `pat`, if any. -/
def matchAfter (pat : List Char) : List Char → Option (List Char)
  | [] => if leadsWith pat [] then some [] else none
  | c :: rest =>
    if leadsWith pat (c :: rest) then some ((c :: rest).drop pat.length)
    else matchAfter pat rest

/-- The part of `s` strictly before the first occurrence of `pat`, if
any. -/
def matchBefore (pat : List Char) : List Char → Option (List Char)
  | [] => if leadsWith pat [] then some [] else none
  | c :: rest =>
    if leadsWith pat (c :: rest) then some []
    else (matchBefore pat rest).map (fun l => c :: l)

/-- The lazy regex `/<queries>([\s\S]*?)<\/queries>/` of
`generateMultipleQueries`: the leftmost `<queries>` opening tag with a
closing tag somewhere after it; the captured group runs to the first
closing tag after the opening one. -/
def extractQueriesBlock (response : List Char) : Option (List Char) :=
  (matchAfter ("<queries>".data) response).bind
    (fun rest => matchBefore ("</queries>".data) rest)

/-- JavaScript `String.prototype.trim` on the character list. -/
def trimChars (l : List Char) : List Char :=
  ((l.dropWhile Char.isWhitespace).reverse.dropWhile Char.isWhitespace).reverse

/-- JavaScript `split('\n')`: no collapsing of empty segments. -/
def splitNl : List Char → List (List Char)
  | [] => [[]]
  | c :: rest =>
    if c = '\n' then [] :: splitNl rest
    else
      match splitNl rest with
      | [] => [[c]]
      | h :: t => (c :: h) :: t

/-- The parsing tail of `generateMultipleQueries`: if the regex
matches, trim the captured group, split it on newlines, trim each line,
drop empty lines and keep at most `maxQueries`; if the regex does not
match at all, fall back to the original query as the sole sub-query. -/
def parseGeneratedQueries (response : List Char) (maxQueries : Nat) (query : List Char) :
    List (List Char) :=
  match extractQueriesBlock response with
  | some block =>
    (((splitNl (trimChars block)).map trimChars).filter
      (fun q => !q.isEmpty)).take maxQueries
  | none => [query]

end CopilotSearchAgent

/-- Claim C5, counterexample: a model response carrying a well-formed
but empty `<queries>` block parses to zero usable queries, yet
`generateMultipleQueries` returns the empty list — not the original
query — because the verbatim fallback only triggers when the regex
fails to match.  The claimed lower bound of one sub-query is violated. -/
theorem c5_counterexample :
    CopilotSearchAgent.maxQueriesFor "speed" = 2
    ∧ CopilotSearchAgent.parseGeneratedQueries ("<queries>\n</queries>".data) 2
        ("what is photosynthesis".data) = [] := by
  refine ⟨by decide, by decide⟩

/-- Claim C5 as amended (proved): query generation returns at most the
optimization-mode-dependent maximum (2 for speed, 3 for balanced, 4 for
quality) sub-queries; when the model response contains no `<queries>`
block at all it returns the original query verbatim as the sole
sub-query; a present-but-empty block, however, yields zero sub-queries
with no fallback. -/
theorem c5_query_generation_amended (response query : List Char) (mode : String) :
    1 ≤ CopilotSearchAgent.maxQueriesFor mode
    ∧ (CopilotSearchAgent.parseGeneratedQueries response
        (CopilotSearchAgent.maxQueriesFor mode) query).length
        ≤ CopilotSearchAgent.maxQueriesFor mode
    ∧ (CopilotSearchAgent.extractQueriesBlock response = none →
        CopilotSearchAgent.parseGeneratedQueries response
          (CopilotSearchAgent.maxQueriesFor mode) query = [query])
    ∧ CopilotSearchAgent.maxQueriesFor "speed" = 2
    ∧ CopilotSearchAgent.maxQueriesFor "balanced" = 3
    ∧ CopilotSearchAgent.maxQueriesFor "quality" = 4 := by
  have hone : 1 ≤ CopilotSearchAgent.maxQueriesFor mode := by
    unfold CopilotSearchAgent.maxQueriesFor
    split
    · omega
    · split <;> omega
  refine ⟨hone, ?_, ?_, by decide, by decide, by decide⟩
  · cases hblock : CopilotSearchAgent.extractQueriesBlock response with
    | none =>
      simp only [CopilotSearchAgent.parseGeneratedQueries, hblock, List.length_singleton]
      exact hone
    | some block =>
      simp only [CopilotSearchAgent.parseGeneratedQueries, hblock]
      exact List.length_take_le _ _
  · intro hnone
    simp only [CopilotSearchAgent.parseGeneratedQueries, hnone]

/-- Witness for C5 (amended): a response with no `<queries>` block
falls back to the original query. -/
theorem c5_query_generation_amended_witness :
    CopilotSearchAgent.parseGeneratedQueries ("no tags in this response".data)
      (CopilotSearchAgent.maxQueriesFor "balanced") ("orig".data) = [("orig".data)] :=
  (c5_query_generation_amended ("no tags in this response".data) ("orig".data)
    "balanced").2.2.1 (by decide)

/-- A search document: title, url, content (`Document` metadata of the
agent).  The embedding-similarity score is supplied externally by the
embedding collaborator, modelled as a function `SearchDoc → ℚ`. -/
structure SearchDoc where
  title : String
  url : String
  content : String
deriving DecidableEq

namespace CopilotSearchAgent

/-- The URL deduplication of `rerankAndDeduplicate`:
`docs.filter((doc, i, self) => i === self.findIndex(d => d.url === doc.url))`
keeps the first document of every URL. -/
def dedupByUrlAux (seen : List String) : List SearchDoc → List SearchDoc
  | [] => []
  | d :: ds =>
    if d.url ∈ seen then dedupByUrlAux seen ds
    else d :: dedupByUrlAux (d.url :: seen) ds

/-- URL deduplication keeping first occurrences. -/
def dedupByUrl (docs : List SearchDoc) : List SearchDoc := dedupByUrlAux [] docs

/-- Descending similarity: the comparator
`(a, b) => b.similarity - a.similarity` of the source sort. -/
def descBySim (sim : SearchDoc → ℚ) (a b : SearchDoc) : Prop := sim b ≤ sim a

instance (sim : SearchDoc → ℚ) : DecidableRel (descBySim sim) :=
  fun a b => inferInstanceAs (Decidable (sim b ≤ sim a))

/-- `rerankAndDeduplicate(docs, query, embeddings)`: empty input stays
empty; otherwise deduplicate by URL, and — when the batched embedding
call succeeds (`embedOk`) — keep the documents whose similarity is
strictly above the threshold (`item.similarity > this.config.rerankThreshold`),
sort them by descending similarity (stable), and cap at 15.  When the
embedding call fails, fall back to the unranked URL-deduplicated list
truncated to the same cap. -/
def rerankAndDeduplicate (threshold : ℚ) (sim : SearchDoc → ℚ) (embedOk : Bool)
    (docs : List SearchDoc) : List SearchDoc :=
  if docs.isEmpty then []
  else
    let uniqueDocs := dedupByUrl docs
    if embedOk then
      (List.insertionSort (descBySim sim)
        (uniqueDocs.filter (fun d => decide (threshold < sim d)))).take 15
    else uniqueDocs.take 15

/-- The reranking step as worded by the claim (for comparison with the
source behaviour): discard documents whose score is *below* the
threshold — i.e. keep scores at or above it — sort the remainder
descending and cap at 15. -/
def rerankPerClaimWording (threshold : ℚ) (sim : SearchDoc → ℚ)
    (docs : List SearchDoc) : List SearchDoc :=
  (List.insertionSort (descBySim sim)
    ((dedupByUrl docs).filter (fun d => decide (threshold ≤ sim d)))).take 15

end CopilotSearchAgent

/-- Claim C6, counterexample: a document whose similarity equals the
configured threshold exactly is not "below the threshold", so the claim
keeps it in the remainder, but the source filter is strict
(`similarity > threshold`) and discards it. -/
theorem c6_counterexample :
    CopilotSearchAgent.rerankAndDeduplicate 1 (fun _ => 1) true [⟨"t", "u", "c"⟩] = []
    ∧ CopilotSearchAgent.rerankPerClaimWording 1 (fun _ => 1) [⟨"t", "u", "c"⟩]
        = [⟨"t", "u", "c"⟩] := by
  refine ⟨by decide, by decide⟩

/-- The "remainder" of the amended C6 claim: the URL-deduplicated
documents whose similarity is strictly above the threshold — exactly
the list the source filter keeps before sorting and capping. -/
def CopilotSearchAgent.rerankRemainder (threshold : ℚ) (sim : SearchDoc → ℚ)
    (docs : List SearchDoc) : List SearchDoc :=
  (CopilotSearchAgent.dedupByUrl docs).filter (fun d => decide (threshold < sim d))

/-- Claim C6 as amended (proved): on a successful embedding call the
reranked output *is* the strictly-above-threshold remainder of the
URL-deduplicated set, sorted in descending similarity order and capped
at 15 — soundness and completeness: every output document is above the
threshold and drawn (with multiplicity) from the remainder, the output
is sorted descending, its length is exactly `min 15 |remainder|`, and
whenever the remainder holds at most 15 documents the output is a
permutation of the whole remainder.  On embedding failure the output is
the unranked URL-deduplicated set truncated to the same cap of 15. -/
theorem c6_rerank_amended (threshold : ℚ) (sim : SearchDoc → ℚ) (docs : List SearchDoc) :
    (∀ d ∈ CopilotSearchAgent.rerankAndDeduplicate threshold sim true docs,
      threshold < sim d)
    ∧ List.Sorted (CopilotSearchAgent.descBySim sim)
        (CopilotSearchAgent.rerankAndDeduplicate threshold sim true docs)
    ∧ (CopilotSearchAgent.rerankAndDeduplicate threshold sim true docs).length ≤ 15
    ∧ (∀ d ∈ CopilotSearchAgent.rerankAndDeduplicate threshold sim true docs,
      d ∈ CopilotSearchAgent.dedupByUrl docs)
    ∧ (CopilotSearchAgent.rerankAndDeduplicate threshold sim true docs).Subperm
        (CopilotSearchAgent.rerankRemainder threshold sim docs)
    ∧ (CopilotSearchAgent.rerankAndDeduplicate threshold sim true docs).length
        = min 15 (CopilotSearchAgent.rerankRemainder threshold sim docs).length
    ∧ ((CopilotSearchAgent.rerankRemainder threshold sim docs).length ≤ 15 →
        (CopilotSearchAgent.rerankAndDeduplicate threshold sim true docs).Perm
          (CopilotSearchAgent.rerankRemainder threshold sim docs))
    ∧ CopilotSearchAgent.rerankAndDeduplicate threshold sim false docs
        = (CopilotSearchAgent.dedupByUrl docs).take 15 := by
  haveI : IsTotal SearchDoc (CopilotSearchAgent.descBySim sim) :=
    ⟨fun a b => le_total (sim b) (sim a)⟩
  haveI : IsTrans SearchDoc (CopilotSearchAgent.descBySim sim) :=
    ⟨fun _ _ _ hab hbc => le_trans hbc hab⟩
  cases hdocs : docs.isEmpty with
  | true =>
    have hnil : docs = [] := List.isEmpty_iff.mp hdocs
    subst hnil
    refine ⟨?_, ?_, ?_, ?_, ?_, ?_, ?_, ?_⟩ <;>
      simp [CopilotSearchAgent.rerankAndDeduplicate, CopilotSearchAgent.rerankRemainder,
        CopilotSearchAgent.dedupByUrl, CopilotSearchAgent.dedupByUrlAux, List.Sorted]
  | false =>
    have hout : CopilotSearchAgent.rerankAndDeduplicate threshold sim true docs =
        (List.insertionSort (CopilotSearchAgent.descBySim sim)
          (CopilotSearchAgent.rerankRemainder threshold sim docs)).take 15 := by
      simp [CopilotSearchAgent.rerankAndDeduplicate, CopilotSearchAgent.rerankRemainder,
        hdocs]
    have hperm : (List.insertionSort (CopilotSearchAgent.descBySim sim)
        (CopilotSearchAgent.rerankRemainder threshold sim docs)).Perm
        (CopilotSearchAgent.rerankRemainder threshold sim docs) :=
      List.perm_insertionSort (CopilotSearchAgent.descBySim sim) _
    have hmemfil : ∀ d ∈ CopilotSearchAgent.rerankAndDeduplicate threshold sim true docs,
        d ∈ CopilotSearchAgent.rerankRemainder threshold sim docs := by
      intro d hd
      rw [hout] at hd
      exact hperm.mem_iff.mp (List.mem_of_mem_take hd)
    refine ⟨?_, ?_, ?_, ?_, ?_, ?_, ?_, ?_⟩
    · intro d hd
      have h2 := List.mem_filter.mp (hmemfil d hd)
      exact of_decide_eq_true h2.2
    · rw [hout]
      exact List.Pairwise.sublist (List.take_sublist _ _)
        (List.sorted_insertionSort (CopilotSearchAgent.descBySim sim) _)
    · rw [hout]
      exact List.length_take_le _ _
    · intro d hd
      exact (List.mem_filter.mp (hmemfil d hd)).1
    · rw [hout]
      exact ((List.take_sublist _ _).subperm).trans hperm.subperm
    · rw [hout, List.length_take, hperm.length_eq]
    · intro hle
      rw [hout, List.take_of_length_le (by rw [hperm.length_eq]; exact hle)]
      exact hperm
    · simp [CopilotSearchAgent.rerankAndDeduplicate, hdocs]

/-- Witness for C6 (amended): a concrete two-document input with both
documents strictly above the threshold — the output has exactly
`min 15 2 = 2` documents and is a permutation of the full remainder,
so the remainder really is returned. -/
theorem c6_rerank_amended_witness :
    (CopilotSearchAgent.rerankAndDeduplicate 1 (fun _ => 2) true
        [⟨"t", "u", "c"⟩, ⟨"t2", "u2", "c2"⟩]).length
      = min 15 (CopilotSearchAgent.rerankRemainder 1 (fun _ => 2)
        [⟨"t", "u", "c"⟩, ⟨"t2", "u2", "c2"⟩]).length
    ∧ (CopilotSearchAgent.rerankAndDeduplicate 1 (fun _ => 2) true
        [⟨"t", "u", "c"⟩, ⟨"t2", "u2", "c2"⟩]).Perm
        (CopilotSearchAgent.rerankRemainder 1 (fun _ => 2)
          [⟨"t", "u", "c"⟩, ⟨"t2", "u2", "c2"⟩]) :=
  ⟨(c6_rerank_amended 1 (fun _ => 2)
      [⟨"t", "u", "c"⟩, ⟨"t2", "u2", "c2"⟩]).2.2.2.2.2.1,
    (c6_rerank_amended 1 (fun _ => 2)
      [⟨"t", "u", "c"⟩, ⟨"t2", "u2", "c2"⟩]).2.2.2.2.2.2.1 (by decide)⟩

/-- The tagged events emitted to the caller of `searchAndAnswer`
(`emitter.emit('data', {type: 'response' | 'thinking' | 'status'})`,
`'error'`, `'end'`). -/
inductive StreamEvent where
  | response (data : String)
  | thinking (data : String)
  | statusUpdate (data : String)
  | errorEvent
  | done
deriving DecidableEq

/-- `fullResponse` accumulated by `handleStream`: the concatenation of
the streamed `response` chunks. -/
def fullOf : List StreamEvent → String
  | [] => ""
  | StreamEvent.response s :: rest => s ++ fullOf rest
  | _ :: rest => fullOf rest

namespace CopilotSearchAgent

/-- `generateKey(query, focusMode, options)` of the `SearchCache`:
a sha-256 of the serialized triple in the source.  The spec stipulates
the key derivation is deterministic and collision-free, so it is
modelled as an injective pairing of the three fields. -/
def genKey (query focusMode options : String) : String :=
  query ++ "|" ++ focusMode ++ "|" ++ options

/-- `searchAndAnswer(message, …, optimizationMode)` followed by
`handleStream`, at cache granularity.  The events the langchain
pipeline would stream (status/thinking notifications and answer
chunks) are the collaborator-supplied `streamed` list.  A cache hit on
`(message, 'copilot', {optimizationMode})` emits the cached answer and
`end` without building the copilot chain (third component `false`);
otherwise the chain runs (`true`), the streamed events are forwarded,
`end` is emitted, and a non-empty accumulated response is stored under
the same key with the cache's default TTL before completion. -/
def searchAndAnswer (cfg : CacheConfig) (now : Nat) (message optimizationMode : String)
    (streamed : List StreamEvent) (st : CacheState String) :
    List StreamEvent × CacheState String × Bool :=
  let key := genKey message "copilot" optimizationMode
  let r := SearchCache.get now key st
  match r.1 with
  | some cached => ([StreamEvent.response cached, StreamEvent.done], r.2, false)
  | none =>
    let full := fullOf streamed
    let st2 := if full = "" then r.2 else SearchCache.set cfg now key full cfg.defaultTTL r.2
    (streamed ++ [StreamEvent.done], st2, true)

end CopilotSearchAgent

/-- Claim C8 (confirmed): a pipeline run for `(query, optimization
mode)` that completes with a non-empty synthesized answer stores that
answer in the result cache under the key derived from
`(query, 'copilot', optimizationMode)`; a subsequent identical call
made while that entry is unexpired is short-circuited — it emits
exactly the cached answer followed by the `end` event and does not
build the copilot chain (no query generation, no search provider
call). -/
theorem c8_pipeline_cache_short_circuit (cfg : CacheConfig) (t1 t2 : Nat)
    (message mode : String) (streamed streamed2 : List StreamEvent)
    (st : CacheState String)
    (hmiss : List.lookup (CopilotSearchAgent.genKey message "copilot" mode) st.cache = none)
    (hfull : fullOf streamed ≠ "")
    (hfresh : t2 ≤ t1 + cfg.defaultTTL) :
    let r1 := CopilotSearchAgent.searchAndAnswer cfg t1 message mode streamed st
    let r2 := CopilotSearchAgent.searchAndAnswer cfg t2 message mode streamed2 r1.2.1
    r1.2.2 = true
    ∧ r1.1 = streamed ++ [StreamEvent.done]
    ∧ List.lookup (CopilotSearchAgent.genKey message "copilot" mode) r1.2.1.cache
        = some ⟨fullOf streamed, t1, t1 + cfg.defaultTTL, 0⟩
    ∧ r2.1 = [StreamEvent.response (fullOf streamed), StreamEvent.done]
    ∧ r2.2.2 = false := by
  intro r1 r2
  have hget1 : SearchCache.get t1 (CopilotSearchAgent.genKey message "copilot" mode) st
      = (none, st) := by
    simp [SearchCache.get, hmiss]
  have hr1 : r1 = (streamed ++ [StreamEvent.done],
      SearchCache.set cfg t1 (CopilotSearchAgent.genKey message "copilot" mode)
        (fullOf streamed) cfg.defaultTTL st, true) := by
    simp [r1, CopilotSearchAgent.searchAndAnswer, hget1, hfull]
  have hlook : List.lookup (CopilotSearchAgent.genKey message "copilot" mode)
      (SearchCache.set cfg t1 (CopilotSearchAgent.genKey message "copilot" mode)
        (fullOf streamed) cfg.defaultTTL st).cache
      = some ⟨fullOf streamed, t1, t1 + cfg.defaultTTL, 0⟩ :=
    lookup_setKey_self _ _ _
  have hexp : SearchCache.isExpired t2
      (⟨fullOf streamed, t1, t1 + cfg.defaultTTL, 0⟩ : CacheEntry String) = false := by
    simp [SearchCache.isExpired]
    omega
  have hget2 : SearchCache.get t2 (CopilotSearchAgent.genKey message "copilot" mode)
      (SearchCache.set cfg t1 (CopilotSearchAgent.genKey message "copilot" mode)
        (fullOf streamed) cfg.defaultTTL st)
      = (some (fullOf streamed),
        ⟨setKey (CopilotSearchAgent.genKey message "copilot" mode)
            ⟨fullOf streamed, t1, t1 + cfg.defaultTTL, 0 + 1⟩
            (SearchCache.set cfg t1 (CopilotSearchAgent.genKey message "copilot" mode)
              (fullOf streamed) cfg.defaultTTL st).cache,
          SearchCache.updateAccessOrder (CopilotSearchAgent.genKey message "copilot" mode)
            (SearchCache.set cfg t1 (CopilotSearchAgent.genKey message "copilot" mode)
              (fullOf streamed) cfg.defaultTTL st).accessOrder⟩) := by
    simp [SearchCache.get, hlook, hexp]
  refine ⟨by simp [hr1], by simp [hr1], by rw [hr1]; exact hlook, ?_, ?_⟩
  · show r2.1 = _
    simp only [r2, hr1]
    simp [CopilotSearchAgent.searchAndAnswer, hget2]
  · show r2.2.2 = false
    simp only [r2, hr1]
    simp [CopilotSearchAgent.searchAndAnswer, hget2]

/-- Witness for C8: an empty cache, a first run streaming the single
answer chunk `"ans"`, and an identical repeat call 1000ms later. -/
theorem c8_pipeline_cache_short_circuit_witness :
    let r1 := CopilotSearchAgent.searchAndAnswer (SearchCache.mkConfig none none none) 0 "q"
      "balanced" [StreamEvent.response "ans"] ⟨[], []⟩
    let r2 := CopilotSearchAgent.searchAndAnswer (SearchCache.mkConfig none none none) 1000 "q"
      "balanced" [] r1.2.1
    r1.2.2 = true
    ∧ r1.1 = [StreamEvent.response "ans"] ++ [StreamEvent.done]
    ∧ List.lookup (CopilotSearchAgent.genKey "q" "copilot" "balanced") r1.2.1.cache
        = some ⟨fullOf [StreamEvent.response "ans"], 0,
            0 + (SearchCache.mkConfig none none none).defaultTTL, 0⟩
    ∧ r2.1 = [StreamEvent.response (fullOf [StreamEvent.response "ans"]), StreamEvent.done]
    ∧ r2.2.2 = false :=
  c8_pipeline_cache_short_circuit (SearchCache.mkConfig none none none) 0 1000 "q" "balanced"
    [StreamEvent.response "ans"] [] ⟨[], []⟩ rfl (by decide) (by decide)
